import Mathlib

/-!
Shallow embedding of the configuration-resolution engine in
`src/lib/rust/ensogl/pack/js/src/runner/config.ts`.

Conventions of the embedding:
* JavaScript runtime values relevant to the engine (strings, booleans,
  numbers) are modelled by `JSVal`; numbers are modelled exactly, as
  `JSNum` (NaN, the two infinities, or a rational), so `Number(input)`
  becomes the executable `jsNumber`.  Double-precision rounding is not
  modelled: every decimal literal is kept as the exact rational it denotes.
* JavaScript plain objects (records) are modelled as association lists in
  insertion order; `recGet` is property lookup and `recSet` is property
  assignment (replace in place when the key exists, append otherwise),
  which is exactly the observable `Object.assign` / indexing semantics for
  objects with unique keys.
* In-place mutation of an object exclusively owned by a tree is modelled
  by rewriting the tree.  Where object identity (aliasing) is observable —
  `Group.merge` copies `Option` references — options live in an explicit
  store indexed by `OptId` and groups hold ids, so sharing is explicit.
* `logger.error` / `console.error` diagnostics are modelled as returned
  values (`ValueUpdateError`); code paths that print nothing return none.
-/

-- ======================
-- === JS value model ===
-- ======================

/-- A JavaScript number: NaN, ±Infinity, or a finite value (kept exact). -/
inductive JSNum where
  | nan
  | posInf
  | negInf
  | fin (q : ℚ)
deriving DecidableEq, Repr

/-- A JavaScript runtime value as used by the configuration engine. -/
inductive JSVal where
  | str (s : String)
  | bool (b : Bool)
  | num (n : JSNum)
deriving DecidableEq, Repr

/-- `OptionType` from the source: `'string' | 'boolean' | 'number'`. -/
inductive OptionType where
  | string
  | boolean
  | number
deriving DecidableEq, Repr

/-- `parseBoolean` (config.ts lines 15-29): booleans pass through; the eight
listed strings convert; anything else yields `null` (here `none`). -/
def parseBoolean : JSVal → Option Bool
  | .bool true => some true
  | .bool false => some false
  | .str "true" => some true
  | .str "false" => some false
  | .str "enabled" => some true
  | .str "disabled" => some false
  | .str "yes" => some true
  | .str "no" => some false
  | .str "1" => some true
  | .str "0" => some false
  | _ => none

-- =========================================
-- === JS Number(string) — ECMA ToNumber ===
-- =========================================

/-- Characters stripped by `ToNumber` on strings (the common whitespace). -/
def isJsWhitespace (c : Char) : Bool :=
  c = ' ' || c = '\t' || c = '\n' || c = '\r' || c = '\x0b' || c = '\x0c'

def trimJsWhitespace (cs : List Char) : List Char :=
  ((cs.dropWhile isJsWhitespace).reverse.dropWhile isJsWhitespace).reverse

def isDecDigit (c : Char) : Bool := '0' ≤ c && c ≤ '9'

/-- Digit value of `c` in the given radix, if valid. -/
def digitValue (radix : Nat) (c : Char) : Option Nat :=
  let v : Option Nat :=
    if '0' ≤ c && c ≤ '9' then some (c.toNat - 48)
    else if 'a' ≤ c && c ≤ 'f' then some (c.toNat - 87)
    else if 'A' ≤ c && c ≤ 'F' then some (c.toNat - 55)
    else none
  match v with
  | some d => if d < radix then some d else none
  | none => none

def radixDigitsAux (radix : Nat) (acc : Nat) : List Char → Option Nat
  | [] => some acc
  | c :: rest =>
    match digitValue radix c with
    | some d => radixDigitsAux radix (acc * radix + d) rest
    | none => none

/-- Value of a non-empty all-valid digit string in the given radix. -/
def radixDigits (radix : Nat) (cs : List Char) : Option Nat :=
  if cs.isEmpty then none else radixDigitsAux radix 0 cs

/-- `0x…` / `0o…` / `0b…` integer literals. -/
def parseRadix (radix : Nat) (cs : List Char) : JSNum :=
  match radixDigits radix cs with
  | some n => .fin n
  | none => .nan

def decDigitsVal (cs : List Char) : Nat :=
  cs.foldl (fun a c => a * 10 + (c.toNat - 48)) 0

/-- The optional exponent part: empty, or `e`/`E` then optionally signed
digits.  Returns the exponent, or `none` on trailing garbage. -/
def parseExpPart : List Char → Option Int
  | [] => some 0
  | c :: rest =>
    if c = 'e' || c = 'E' then
      match rest with
      | '+' :: ds => if ds.isEmpty || !ds.all isDecDigit then none else some (decDigitsVal ds)
      | '-' :: ds => if ds.isEmpty || !ds.all isDecDigit then none else some (-(decDigitsVal ds : Int))
      | ds => if ds.isEmpty || !ds.all isDecDigit then none else some (decDigitsVal ds)
    else none

/-- Combine integer digits, fraction digits and exponent into the exact
rational value of the decimal literal: `±(ip.fp) × 10^e`, written with
`mkRat` over integers so that it evaluates by kernel reduction. -/
def decCombine (neg : Bool) (ip fp : List Char) (e : Int) : ℚ :=
  let num : Int := (decDigitsVal ip * 10 ^ fp.length + decDigitsVal fp : Nat)
  let num2 : Int := if neg then -num else num
  let den : Nat := 10 ^ fp.length
  if 0 ≤ e then mkRat (num2 * 10 ^ e.toNat) den else mkRat num2 (den * 10 ^ (-e).toNat)

/-- `StrUnsignedDecimalLiteral`: `Infinity`, or decimal digits with optional
fraction and exponent. -/
def parseUnsignedDec (neg : Bool) (cs : List Char) : JSNum :=
  if cs = "Infinity".data then (if neg then .negInf else .posInf)
  else
    let ip := cs.takeWhile isDecDigit
    let rest1 := cs.dropWhile isDecDigit
    match rest1 with
    | '.' :: rest2 =>
      let fp := rest2.takeWhile isDecDigit
      let rest3 := rest2.dropWhile isDecDigit
      if ip.isEmpty && fp.isEmpty then .nan
      else
        match parseExpPart rest3 with
        | some e => .fin (decCombine neg ip fp e)
        | none => .nan
    | _ =>
      if ip.isEmpty then .nan
      else
        match parseExpPart rest1 with
        | some e => .fin (decCombine neg ip [] e)
        | none => .nan

def parseSignedDec : List Char → JSNum
  | '+' :: rest => parseUnsignedDec false rest
  | '-' :: rest => parseUnsignedDec true rest
  | cs => parseUnsignedDec false cs

/-- The JavaScript `Number(s)` conversion for strings. -/
def jsNumber (s : String) : JSNum :=
  let cs := trimJsWhitespace s.data
  match cs with
  | [] => .fin 0
  | '0' :: c :: rest =>
    if c = 'x' || c = 'X' then parseRadix 16 rest
    else if c = 'o' || c = 'O' then parseRadix 8 rest
    else if c = 'b' || c = 'B' then parseRadix 2 rest
    else parseSignedDec cs
  | _ => parseSignedDec cs

example : jsNumber "3.14" = .fin (mkRat 157 50) := by decide
example : jsNumber "abc" = .nan := by decide
example : jsNumber "Infinity" = .posInf := by decide
example : jsNumber "-Infinity" = .negInf := by decide
example : jsNumber "" = .fin 0 := by decide
example : jsNumber "0x10" = .fin 16 := by decide
example : jsNumber "1e3" = .fin 1000 := by decide
example : jsNumber " 12 " = .fin 12 := by decide
example : jsNumber "maybe" = .nan := by decide
example : jsNumber "300" = .fin 300 := by decide
example : jsNumber "-2.5" = .fin (mkRat (-5) 2) := by decide
example : jsNumber "1 2" = .nan := by decide
example : jsNumber ".5" = .fin (mkRat 1 2) := by decide

-- ====================================
-- === Option (config.ts class Option) ===
-- ====================================

/-- The `Option` class of config.ts (named `ConfigOption` here because `Option`
is taken by Lean's core).  Fields and their initial values follow the class
declaration and its constructor (lines 41-72). -/
structure ConfigOption where
  name : String := "uninitialized"
  group : String := "uninitialized"
  default : JSVal
  value : JSVal
  type : OptionType
  description : String
  defaultDescription : Option String := none
  setByUser : Bool := false
  hidden : Bool := false
  primary : Bool := true
deriving DecidableEq, Repr

/-- The constructor `new Option(cfg)`: `value := cfg.default`,
`setByUser := false`; `hidden` defaults to false and `primary` to true. -/
def ConfigOption.construct (d : JSVal) (ty : OptionType) (descr : String)
    (primary : Bool) : ConfigOption :=
  { name := "uninitialized", group := "uninitialized", default := d, value := d,
    type := ty, description := descr, defaultDescription := none,
    setByUser := false, hidden := false, primary := primary }

/-- `qualifiedName()` (lines 74-76): `group && group != name` prepends the
group; an empty `group` string is falsy in JS. -/
def ConfigOption.qualifiedName (o : ConfigOption) : String :=
  if o.group ≠ "" && o.group ≠ o.name then o.group ++ "." ++ o.name else o.name

/-- The diagnostic printed by `printValueUpdateError` (lines 101-106): it
carries the qualified name, the expected type, the rejected input, and the
default value the message claims will be used. -/
structure ValueUpdateError where
  qualifiedName : String
  expectedType : OptionType
  got : String
  shownDefault : JSVal
deriving DecidableEq, Repr

/-- `Option.load(input)` (lines 78-99).  Dispatch follows the source exactly:
on `typeof this.value`, not on the declared type tag.  A failed coercion
leaves the option unchanged and emits the `printValueUpdateError` diagnostic;
a successful one updates `value` and sets `setByUser`. -/
def ConfigOption.load (o : ConfigOption) (input : String) :
    ConfigOption × Option ValueUpdateError :=
  match o.value with
  | .bool _ =>
    match parseBoolean (.str input) with
    | none => (o, some ⟨o.qualifiedName, o.type, input, o.default⟩)
    | some b => ({ o with value := .bool b, setByUser := true }, none)
  | .num _ =>
    match jsNumber input with
    | .nan => (o, some ⟨o.qualifiedName, o.type, input, o.default⟩)
    | n => ({ o with value := .num n, setByUser := true }, none)
  | .str _ =>
    -- `String(input)` where `input` is already a string is the identity.
    ({ o with value := .str input, setByUser := true }, none)

-- ==========================================
-- === JS records as ordered assoc lists  ===
-- ==========================================

/-- Property lookup `m[k]` on a JS object. -/
def recGet {κ α : Type} [DecidableEq κ] : List (κ × α) → κ → Option α
  | [], _ => none
  | (k, v) :: rest, key => if k = key then some v else recGet rest key

/-- Property assignment `m[k] = v` on a JS object: replaces in place when the
key exists (keeping its position), appends otherwise. -/
def recSet {κ α : Type} [DecidableEq κ] : List (κ × α) → κ → α → List (κ × α)
  | [], key, v => [(key, v)]
  | (k, w) :: rest, key, v =>
    if k = key then (key, v) :: rest else (k, w) :: recSet rest key v

/-- The keys of a JS object, in property order. -/
def keysOf {κ α : Type} (l : List (κ × α)) : List κ := l.map (fun p => p.1)

-- ==========================
-- === Override values    ===
-- ==========================

mutual

/-- An externally supplied override value: a raw scalar (text) or a nested
mapping.  The mapping is its own cons-list type (rather than `List`) so that
recursion over override trees is structural. -/
inductive OverrideValue where
  | str (s : String)
  | obj (entries : OverrideEntries)

/-- The ordered entries of an override mapping. -/
inductive OverrideEntries where
  | nil
  | cons (key : String) (value : OverrideValue) (rest : OverrideEntries)

end

/-- Build an override mapping from a list of entries. -/
def OverrideEntries.ofList : List (String × OverrideValue) → OverrideEntries
  | [] => .nil
  | (k, v) :: rest => .cons k v (OverrideEntries.ofList rest)

-- =====================================
-- === Group (config.ts class Group) ===
-- =====================================

/-- Identity of an `Option` object.  `Group.merge` copies *references* to
`Option` objects (`Object.assign`), so object identity is observable; groups
therefore hold ids into an explicit store. -/
abbrev OptId := Nat

/-- The store of `Option` objects, indexed by identity. -/
abbrev Store := List (OptId × ConfigOption)

mutual

/-- The `Group` class (config.ts lines 136-185), named `GroupT` because
`Group` is taken by Mathlib: a record from name to option reference and a
record from name to child group. -/
inductive GroupT where
  | mk (options : List (String × OptId)) (groups : GroupList)

/-- The ordered `groups` record of a `Group`. -/
inductive GroupList where
  | nil
  | cons (name : String) (g : GroupT) (rest : GroupList)

end

def GroupT.options : GroupT → List (String × OptId)
  | .mk os _ => os

def GroupT.groups : GroupT → GroupList
  | .mk _ gs => gs

/-- Property lookup on the `groups` record. -/
def GroupList.get : GroupList → String → Option GroupT
  | .nil, _ => none
  | .cons n g rest, key => if n = key then some g else rest.get key

/-- Property assignment on the `groups` record (replace in place / append). -/
def GroupList.set : GroupList → String → GroupT → GroupList
  | .nil, key, v => .cons key v .nil
  | .cons n g rest, key, v =>
    if n = key then .cons key v rest else .cons n g (rest.set key v)

/-- The names of the `groups` record, in property order. -/
def GroupList.keys : GroupList → List String
  | .nil => []
  | .cons n _ rest => n :: rest.keys

/-- Build a `groups` record from a list of named groups. -/
def GroupList.ofList : List (String × GroupT) → GroupList
  | [] => .nil
  | (n, g) :: rest => .cons n g (GroupList.ofList rest)

/-- The loop over `other.options` in `merge` (config.ts lines 156-163): each
of `other`'s option references overwrites the accumulated record.  The
collision case holds only a `// TODO warning` comment in the source — no
diagnostic is produced. -/
def mergeOptionLists (acc : List (String × OptId)) :
    List (String × OptId) → List (String × OptId)
  | [] => acc
  | (n, o) :: rest => mergeOptionLists (recSet acc n o) rest

mutual

/-- `Group.merge(other)` (config.ts lines 144-165): a fresh `Group` whose
`groups` record starts as a copy of `this.groups` (`Object.assign`), then
each of `other`'s child groups is either adopted by reference or recursively
merged; the `options` record is a copy of `this.options` overwritten by
`other`'s option references. -/
def GroupT.merge (a b : GroupT) : GroupT :=
  match a, b with
  | .mk os gs, .mk os2 gs2 => .mk (mergeOptionLists os os2) (mergeGroupLists gs gs2)

/-- The loop over `other.groups` in `merge` (config.ts lines 148-155). -/
def mergeGroupLists (acc : GroupList) : GroupList → GroupList
  | .nil => acc
  | .cons n g2 rest =>
    match acc.get n with
    | none => mergeGroupLists (acc.set n g2) rest
    | some g => mergeGroupLists (acc.set n (g.merge g2)) rest

end

mutual

/-- All option references (object identities) reachable from a group. -/
def GroupT.optionIds : GroupT → List OptId
  | .mk os gs => os.map (fun p => p.2) ++ optionIdsList gs

/-- All option references reachable from a `groups` record. -/
def optionIdsList : GroupList → List OptId
  | .nil => []
  | .cons _ g rest => g.optionIds ++ optionIdsList rest

end

/-- The body of the `Group.load` loop (config.ts lines 169-180): string
values are routed to the named option's `load`; a missing option or a
non-string value only hits `console.error('TODO')` (modelled as a no-op,
since nothing else happens).  Diagnostics from `Option.load` are collected. -/
def loadEntries (os : List (String × OptId)) (st : Store)
    (ds : List ValueUpdateError) :
    OverrideEntries → Store × List ValueUpdateError
  | .nil => (st, ds)
  | .cons k (OverrideValue.str v) rest =>
    (match recGet os k with
     | none => loadEntries os st ds rest
     | some i =>
       match recGet st i with
       | none =>
         -- unreachable for well-formed states: every referenced id is stored
         loadEntries os st ds rest
       | some o =>
         let r := o.load v
         loadEntries os (recSet st i r.1) (ds ++ r.2.toList) rest)
  | .cons _ (OverrideValue.obj _) rest => loadEntries os st ds rest

/-- `Group.load(config)` (config.ts lines 167-184): iterate the entries of a
mapping; anything that is not a mapping only hits `console.error('TODO')`. -/
def GroupT.load (g : GroupT) (st : Store) (config : OverrideValue) :
    Store × List ValueUpdateError :=
  match config with
  | .obj entries => loadEntries g.options st [] entries
  | _ => (st, [])

-- =======================================
-- === Config (config.ts class Config) ===
-- =======================================

/-- `DEFAULT_ENTRY_POINT` (config.ts line 5). -/
def DEFAULT_ENTRY_POINT : String := "ide"

mutual

/-- `ExternalOptions` (config.ts lines 123-125): a record whose values are
`Option` instances or nested records.  A value of this type is one child. -/
inductive OptionsTree where
  | opt (o : ConfigOption)
  | node (entries : OptionsRec)

/-- A record of `OptionsTree` children — the shape of `Config.options`. -/
inductive OptionsRec where
  | nil
  | cons (key : String) (t : OptionsTree) (rest : OptionsRec)

end

/-- Property lookup on an options record. -/
def OptionsRec.get : OptionsRec → String → Option OptionsTree
  | .nil, _ => none
  | .cons k t rest, key => if k = key then some t else rest.get key

/-- Property assignment on an options record (replace in place / append). -/
def OptionsRec.set : OptionsRec → String → OptionsTree → OptionsRec
  | .nil, key, v => .cons key v .nil
  | .cons k t rest, key, v =>
    if k = key then .cons key v rest else .cons k t (rest.set key v)

/-- Build an options record from a list of entries. -/
def OptionsRec.ofList : List (String × OptionsTree) → OptionsRec
  | [] => .nil
  | (k, t) :: rest => .cons k t (OptionsRec.ofList rest)

mutual

/-- `initOptions` (config.ts lines 343-352): stamps every reachable `Option`
with `group := 'TODO'` and `name := key`, recursing into nested records. -/
def initOptions : OptionsRec → OptionsRec
  | .nil => .nil
  | .cons key t rest => .cons key (initOptionsChild key t) (initOptions rest)

/-- One entry of the `initOptions` loop: an `Option` instance is stamped,
anything else is recursed into. -/
def initOptionsChild (key : String) : OptionsTree → OptionsTree
  | .opt o => .opt { o with group := "TODO", name := key }
  | .node sub => .node (initOptions sub)

end

/-- The application default configuration `options` (config.ts lines
235-320), with the template `${DEFAULT_ENTRY_POINT}` already substituted as
JS does at construction time. -/
def optionsDef : OptionsRec := .ofList
  [ ("loader", .node (.ofList
      [ ("enabled", .opt (ConfigOption.construct (.bool true) .boolean
          ("Controls whether the visual loader should be visible on the screen when " ++
           "downloading and compiling WASM sources. By default, the loader is used only if " ++
           "the `entry` is set to ide.") false)),
        ("pkgWasmUrl", .opt (ConfigOption.construct (.str "pkg.wasm") .string
          "The URL of the WASM pkg file generated by ensogl-pack." false)),
        ("pkgJsUrl", .opt (ConfigOption.construct (.str "pkg.js") .string
          "The URL of the JS pkg file generated by ensogl-pack." false)),
        ("shadersUrl", .opt (ConfigOption.construct (.str "shaders") .string
          "The URL of pre-compiled the shaders directory." false)),
        ("loaderDownloadToInitRatio", .opt (ConfigOption.construct (.num (.fin 1)) .number
          ("The (time needed for WASM download) / (total time including WASM " ++
           "download and WASM app initialization). In case of small WASM apps, this can be set " ++
           "to 1.0. In case of bigger WASM apps, it is desired to show the progress bar growing " ++
           "up to e.g. 70% and leaving the last 30% for WASM app init.") false)),
        ("maxBeforeMainTimeMs", .opt (ConfigOption.construct (.num (.fin 300)) .number
          ("The maximum time in milliseconds a before main entry point is allowed to run. After " ++
           "this time, an error will be printed, but the execution will continue.") false)) ])),
    ("startup", .node (.ofList
      [ ("entry", .opt (ConfigOption.construct (.str DEFAULT_ENTRY_POINT) .string
          "The application entry point. Use `entry=_` to list available entry points." true)),
        ("theme", .opt (ConfigOption.construct (.str "default") .string
          "The EnsoGL theme to be used." true)) ])),
    ("debug", .node (.ofList
      [ ("debug", .opt (ConfigOption.construct (.bool false) .boolean
          ("Controls whether the application should be run in the debug mode. In this mode all " ++
           "logs are printed to the console. Otherwise, the logs are hidden unless explicitly " ++
           "shown by calling `showLogs`. Moreover, EnsoGL extensions are loaded in the debug " ++
           "mode which may cause additional logs to be printed.") true)),
        ("enableSpector", .opt (ConfigOption.construct (.bool false) .boolean
          ("Enables SpectorJS. This is a temporary flag to test Spector. It will be removed " ++
           "after all Spector integration issues are resolved. See: " ++
           "https://github.com/BabylonJS/Spector.js/issues/252.") false)) ])) ]

/-- `new Config(inputOptions?)` (config.ts lines 366-369): bind the provided
record or the default `options`, then run `initOptions` over it. -/
def Config.construct (inputOptions : Option OptionsRec) : OptionsRec :=
  initOptions (inputOptions.getD optionsDef)

/-- The options record of a `Config` constructed with no arguments. -/
def defaultConfig : OptionsRec := Config.construct none

/-- The `for (const [key, value] of Object.entries(other))` loop of
`Config.resolveFromObjectInternal` (config.ts lines 397-417).  Everything
that is not a matching key/shape only hits a `// TODO` comment, i.e. nothing
happens; a string value hitting an `Option` is written raw
(`option.value = value // FIXME parsing`) with no coercion and without
touching `setByUser`; a nested record hitting a nested record recurses (the
recursive call re-enters `resolveFromObjectInternal` with a non-null object,
whose `typeof other === 'object'` guard passes, so it proceeds directly to
this loop on the object's entries). -/
def resolveWalkEntries (options : OptionsRec) : OverrideEntries → OptionsRec
  | .nil => options
  | .cons key (OverrideValue.str s) rest =>
    let opts2 :=
      match options.get key with
      | none => options
      | some (OptionsTree.opt o) => options.set key (.opt { o with value := JSVal.str s })
      | some (OptionsTree.node _) => options
    resolveWalkEntries opts2 rest
  | .cons key (OverrideValue.obj es) rest =>
    let opts2 :=
      match options.get key with
      | none => options
      | some (OptionsTree.opt _) => options
      | some (OptionsTree.node sub) => options.set key (.node (resolveWalkEntries sub es))
    resolveWalkEntries opts2 rest

/-- `Config.resolveFromObjectInternal` (config.ts lines 395-422): the guard
on `other`, the loop, and the unconditional `return null` — the promised
unrecognized-parameter list is never produced. -/
def Config.resolveFromObjectInternal (options : OptionsRec) (other : OverrideValue) :
    OptionsRec × Option (List String) :=
  (match other with
   | .obj entries => resolveWalkEntries options entries
   | .str _ => options,
   none)

/-- One override source: `Record<string, Record<string, any>>`. -/
abbrev SrcGroup := OverrideEntries
abbrev Src := List (String × SrcGroup)

/-- Property assignment on an override record. -/
def OverrideEntries.set : OverrideEntries → String → OverrideValue → OverrideEntries
  | .nil, key, v => .cons key v .nil
  | .cons k w rest, key, v =>
    if k = key then .cons key v rest else .cons k w (rest.set key v)

/-- `Object.assign(target, source)` on override records. -/
def assignEntries (target : SrcGroup) : SrcGroup → SrcGroup
  | .nil => target
  | .cons k v rest => assignEntries (target.set k v) rest

/-- The source-merging loop of `Config.resolve` (config.ts lines 374-382):
fold the sources left to right; per group name, `Object.assign` onto the
accumulated group record (so a later source wins per leaf key); `undefined`
sources are skipped. -/
def foldOverrides (overrides : List (Option Src)) : Src :=
  overrides.foldl
    (fun all o =>
      match o with
      | none => all
      | some src =>
        src.foldl
          (fun all2 p => recSet all2 p.1 (assignEntries ((recGet all2 p.1).getD .nil) p.2))
          all)
    []

/-- Wrap the merged override record as the object handed to
`resolveFromObject`. -/
def srcToOverride (src : Src) : OverrideValue :=
  .obj (OverrideEntries.ofList (src.map (fun p => (p.1, OverrideValue.obj p.2))))

/-- Lookup of an `Option` instance at a dotted path in the options record. -/
def getOpt : OptionsRec → List String → Option ConfigOption
  | _, [] => none
  | m, [k] =>
    match m.get k with
    | some (OptionsTree.opt o) => some o
    | _ => none
  | m, k :: ks =>
    match m.get k with
    | some (OptionsTree.node sub) => getOpt sub ks
    | _ => none

/-- Assignment `<path>.value = v` to the `Option` instance at a dotted path. -/
def setOptValue : OptionsRec → List String → JSVal → OptionsRec
  | m, [], _ => m
  | m, [k], v =>
    match m.get k with
    | some (OptionsTree.opt o) => m.set k (OptionsTree.opt { o with value := v })
    | _ => m
  | m, k :: ks, v =>
    match m.get k with
    | some (OptionsTree.node sub) => m.set k (OptionsTree.node (setOptValue sub ks v))
    | _ => m

/-- `Config.finalize` (config.ts lines 475-482): if `loader.enabled` was not
set by the user and `startup.entry` differs from the default entry point,
set `loader.enabled.value` to `false`. -/
def Config.finalize (t : OptionsRec) : OptionsRec :=
  match getOpt t ["loader", "enabled"], getOpt t ["startup", "entry"] with
  | some le, some se =>
    if le.setByUser = false ∧ se.value ≠ JSVal.str DEFAULT_ENTRY_POINT then
      setOptValue t ["loader", "enabled"] (JSVal.bool false)
    else t
  | _, _ => t

/-- `Config.resolve(overrides)` (config.ts lines 373-386): fold the sources,
walk the schema, then finalize; the return value is whatever
`resolveFromObject` returned — always `null`. -/
def Config.resolve (opts : OptionsRec) (overrides : List (Option Src)) :
    OptionsRec × Option (List String) :=
  let allOverrides := foldOverrides overrides
  let r := Config.resolveFromObjectInternal opts (srcToOverride allOverrides)
  (Config.finalize r.1, r.2)

-- ===========================================
-- === Record lemmas used by the theorems  ===
-- ===========================================

theorem OptionsRec.get_set_same : ∀ (m : OptionsRec) (k : String) (t : OptionsTree),
    (m.set k t).get k = some t
  | .nil, k, t => by simp [OptionsRec.set, OptionsRec.get]
  | .cons k' t' rest, k, t => by
    by_cases hk : k' = k
    · subst hk; simp [OptionsRec.set, OptionsRec.get]
    · simp [OptionsRec.set, OptionsRec.get, hk]
      exact OptionsRec.get_set_same rest k t

theorem OptionsRec.get_set_ne : ∀ (m : OptionsRec) (k k' : String) (t : OptionsTree),
    k ≠ k' → (m.set k t).get k' = m.get k'
  | .nil, k, k', t, h => by simp [OptionsRec.set, OptionsRec.get, h]
  | .cons k2 t2 rest, k, k', t, h => by
    by_cases hk : k2 = k
    · subst hk; simp [OptionsRec.set, OptionsRec.get, h]
    · simp only [OptionsRec.set, OptionsRec.get, hk, if_false]
      by_cases hk' : k2 = k'
      · simp [hk']
      · simp [hk, hk']
        exact OptionsRec.get_set_ne rest k k' t h

theorem OptionsRec.set_get_id : ∀ (m : OptionsRec) (k : String) (t : OptionsTree),
    m.get k = some t → m.set k t = m
  | .nil, k, t, h => by simp [OptionsRec.get] at h
  | .cons k2 t2 rest, k, t, h => by
    by_cases hk : k2 = k
    · subst hk
      simp [OptionsRec.get] at h
      simp [OptionsRec.set, h]
    · simp [OptionsRec.get, hk] at h
      simp [OptionsRec.set, hk]
      exact OptionsRec.set_get_id rest k t h

theorem getOpt2_set2_same (t : OptionsRec) (a b : String) (o : ConfigOption) (v : JSVal)
    (h : getOpt t [a, b] = some o) :
    getOpt (setOptValue t [a, b] v) [a, b] = some { o with value := v } := by
  cases ha : t.get a with
  | none => simp [getOpt, ha] at h
  | some tt =>
    cases tt with
    | opt _ => simp [getOpt, ha] at h
    | node sub =>
      cases hb : sub.get b with
      | none => simp [getOpt, ha, hb] at h
      | some tb =>
        cases tb with
        | node _ => simp [getOpt, ha, hb] at h
        | opt o2 =>
          have ho : o2 = o := by simpa [getOpt, ha, hb] using h
          subst ho
          simp [setOptValue, getOpt, ha, hb, OptionsRec.get_set_same]

theorem getOpt2_set2_ne (t : OptionsRec) (a b a' b' : String) (v : JSVal) (hne : a ≠ a') :
    getOpt (setOptValue t [a, b] v) [a', b'] = getOpt t [a', b'] := by
  cases ha : t.get a with
  | none => simp [setOptValue, ha]
  | some tt =>
    cases tt with
    | opt _ => simp [setOptValue, ha]
    | node sub => simp [setOptValue, getOpt, ha, OptionsRec.get_set_ne _ _ _ _ hne]

theorem set2_value_id (t : OptionsRec) (a b : String) (o : ConfigOption)
    (h : getOpt t [a, b] = some o) :
    setOptValue t [a, b] o.value = t := by
  cases ha : t.get a with
  | none => simp [getOpt, ha] at h
  | some tt =>
    cases tt with
    | opt _ => simp [getOpt, ha] at h
    | node sub =>
      cases hb : sub.get b with
      | none => simp [getOpt, ha, hb] at h
      | some tb =>
        cases tb with
        | node _ => simp [getOpt, ha, hb] at h
        | opt o2 =>
          have ho : o2 = o := by simpa [getOpt, ha, hb] using h
          subst ho
          have he : ({ o2 with value := o2.value } : ConfigOption) = o2 := rfl
          simp [setOptValue, ha, hb, he, OptionsRec.set_get_id sub b _ hb,
            OptionsRec.set_get_id t a _ ha]

-- =========================================
-- === Claim theorems: Config behaviour  ===
-- =========================================

/-- C10: `Config.finalize` is idempotent: for every options record, running
`finalize` twice leaves every option's `value` and `setByUser` exactly as
running it once — the rule reads only `setByUser` and `startup.entry.value`,
neither of which it changes, and its one write is the constant `false`. -/
theorem c10_finalize_idempotent (t : OptionsRec) :
    Config.finalize (Config.finalize t) = Config.finalize t := by
  cases h1 : getOpt t ["loader", "enabled"] with
  | none =>
    have ht : Config.finalize t = t := by
      unfold Config.finalize; rw [h1]
    rw [ht, ht]
  | some le =>
    cases h2 : getOpt t ["startup", "entry"] with
    | none =>
      have ht : Config.finalize t = t := by
        unfold Config.finalize; rw [h1, h2]
      rw [ht, ht]
    | some se =>
      by_cases hc : le.setByUser = false ∧ se.value ≠ JSVal.str DEFAULT_ENTRY_POINT
      · have ht : Config.finalize t = setOptValue t ["loader", "enabled"] (JSVal.bool false) := by
          unfold Config.finalize; rw [h1, h2]; simp [hc]
        have g1 : getOpt (setOptValue t ["loader", "enabled"] (JSVal.bool false))
            ["loader", "enabled"] = some { le with value := JSVal.bool false } :=
          getOpt2_set2_same t _ _ le _ h1
        have g2 : getOpt (setOptValue t ["loader", "enabled"] (JSVal.bool false))
            ["startup", "entry"] = some se := by
          rw [getOpt2_set2_ne t _ _ _ _ _ (by decide), h2]
        have ht2 : Config.finalize (setOptValue t ["loader", "enabled"] (JSVal.bool false))
            = setOptValue (setOptValue t ["loader", "enabled"] (JSVal.bool false))
                ["loader", "enabled"] (JSVal.bool false) := by
          unfold Config.finalize; rw [g1, g2]
          simp [hc.1, hc.2]
        have hid := set2_value_id (setOptValue t ["loader", "enabled"] (JSVal.bool false))
          "loader" "enabled" { le with value := JSVal.bool false } g1
        rw [ht, ht2]
        simpa using hid
      · have ht : Config.finalize t = t := by
          unfold Config.finalize; rw [h1, h2]; simp [hc]
        rw [ht, ht]

/-- C1: evaluating `resolve` on the canonical schema at the claim's inputs.
With `{startup:{entry:"custom"}, loader:{enabled:"true"}}` the override is
written raw (`option.value = value`, the `// FIXME parsing` line) without
setting `setByUser`, so `finalize` sees `setByUser = false` together with a
non-default entry and overwrites `loader.enabled.value` with `false` — not
`true` as the claim states.  With only `{startup:{entry:"custom"}}` the value
is `false`, as the claim states. -/
theorem c1_resolve_loader_enabled :
    ((getOpt (Config.resolve defaultConfig
        [some [("startup", OverrideEntries.ofList [("entry", OverrideValue.str "custom")]),
               ("loader", OverrideEntries.ofList [("enabled", OverrideValue.str "true")])]]).1
      ["loader", "enabled"]).map (fun o => (o.value, o.setByUser))
      = some (JSVal.bool false, false)) ∧
    ((getOpt (Config.resolve defaultConfig
        [some [("startup", OverrideEntries.ofList [("entry", OverrideValue.str "custom")])]]).1
      ["loader", "enabled"]).map (fun o => o.value)
      = some (JSVal.bool false)) := ⟨rfl, rfl⟩

/-- C2: evaluating `resolve` on two sources both setting `loader.enabled`.
The later source's entry does win the `Object.assign` fold, but the value is
stored as the raw string `"true"` (no coercion) and `setByUser` stays
`false`, contradicting the claim's `coerced value` and `setByUser = true`. -/
theorem c2_resolve_later_source_raw :
    (getOpt (Config.resolve defaultConfig
        [some [("loader", OverrideEntries.ofList [("enabled", OverrideValue.str "false")])],
         some [("loader", OverrideEntries.ofList [("enabled", OverrideValue.str "true")])]]).1
      ["loader", "enabled"]).map (fun o => (o.value, o.setByUser))
      = some (JSVal.str "true", false) := rfl

/-- C7: evaluating `resolve` on an override whose path `bogus.x` matches no
schema node.  The walk does not throw (it is a total function) but the
unrecognized path is dropped: the options record is untouched and the
returned list is `null`, never `["bogus.x"]`. -/
theorem c7_resolve_unrecognized_dropped :
    ((Config.resolve defaultConfig
        [some [("bogus", OverrideEntries.ofList [("x", OverrideValue.str "1")])]]).2 = none) ∧
    ((Config.resolve defaultConfig
        [some [("bogus", OverrideEntries.ofList [("x", OverrideValue.str "1")])]]).1
      = defaultConfig) := ⟨rfl, rfl⟩

/-- C8: evaluating `resolve` on a malformed scalar (`loader.enabled:"maybe"`,
unparseable as boolean).  `resolve` terminates normally (it is a total
function of the model), but the outcome is neither `kept value plus
diagnostic` nor an accumulated unrecognized path: the unparsed text
overwrites the boolean default and nothing is reported (`resolve` returns
`null` and has no diagnostic output at all on this code path). -/
theorem c8_resolve_malformed_scalar :
    ((getOpt (Config.resolve defaultConfig
        [some [("loader", OverrideEntries.ofList [("enabled", OverrideValue.str "maybe")])]]).1
      ["loader", "enabled"]).map (fun o => (o.value, o.setByUser))
      = some (JSVal.str "maybe", false)) ∧
    ((Config.resolve defaultConfig
        [some [("loader", OverrideEntries.ofList [("enabled", OverrideValue.str "maybe")])]]).2
      = none) := ⟨rfl, rfl⟩

-- ========================================
-- === Claim theorems: Option coercion  ===
-- ========================================

theorem parseBoolean_str_none (s : String)
    (h : s ∉ ["true", "1", "yes", "enabled", "false", "0", "no", "disabled"]) :
    parseBoolean (.str s) = none := by
  simp only [List.mem_cons, List.not_mem_nil, or_false, not_or] at h
  obtain ⟨h1, h2, h3, h4, h5, h6, h7, h8⟩ := h
  unfold parseBoolean
  split <;> simp_all

/-- C3: for a boolean option, `load` maps each of the four truthy strings to
`value = true, setByUser = true`, each of the four falsy strings to
`value = false, setByUser = true`, and leaves the option unchanged while
emitting the coercion-failure diagnostic on every other string. -/
theorem c3_boolean_load (o : ConfigOption) (b : Bool)
    (hty : o.type = OptionType.boolean) (hval : o.value = JSVal.bool b) :
    (∀ s, s ∈ ["true", "1", "yes", "enabled"] →
      o.load s = ({ o with value := JSVal.bool true, setByUser := true }, none)) ∧
    (∀ s, s ∈ ["false", "0", "no", "disabled"] →
      o.load s = ({ o with value := JSVal.bool false, setByUser := true }, none)) ∧
    (∀ s, s ∉ ["true", "1", "yes", "enabled", "false", "0", "no", "disabled"] →
      o.load s = (o, some ⟨o.qualifiedName, o.type, s, o.default⟩)) := by
  refine ⟨?_, ?_, ?_⟩
  · intro s hs
    simp only [List.mem_cons, List.not_mem_nil, or_false] at hs
    rcases hs with rfl | rfl | rfl | rfl <;> (unfold ConfigOption.load; rw [hval]; rfl)
  · intro s hs
    simp only [List.mem_cons, List.not_mem_nil, or_false] at hs
    rcases hs with rfl | rfl | rfl | rfl <;> (unfold ConfigOption.load; rw [hval]; rfl)
  · intro s hs
    unfold ConfigOption.load
    rw [hval, parseBoolean_str_none s hs]

/-- A concrete boolean option, as constructed by the schema author. -/
def sampleBooleanOption : ConfigOption :=
  ConfigOption.construct (JSVal.bool false) OptionType.boolean "sample" true

/-- Witness for C3 at a concrete option and inputs. -/
theorem c3_boolean_load_witness :
    sampleBooleanOption.load "yes"
        = ({ sampleBooleanOption with value := JSVal.bool true, setByUser := true }, none) ∧
    sampleBooleanOption.load "maybe"
        = (sampleBooleanOption,
           some ⟨sampleBooleanOption.qualifiedName, sampleBooleanOption.type, "maybe",
                 sampleBooleanOption.default⟩) :=
  ⟨(c3_boolean_load sampleBooleanOption false rfl rfl).1 "yes" (by decide),
   (c3_boolean_load sampleBooleanOption false rfl rfl).2.2 "maybe" (by decide)⟩

/-- C4 (amended): for a number option, `load` fails (option unchanged plus
diagnostic) exactly when `Number(input)` is NaN; any other result — the
infinities included — is stored with `setByUser = true`. -/
theorem c4_number_load (o : ConfigOption) (m : JSNum)
    (hty : o.type = OptionType.number) (hval : o.value = JSVal.num m) (s : String) :
    (jsNumber s = JSNum.nan →
      o.load s = (o, some ⟨o.qualifiedName, o.type, s, o.default⟩)) ∧
    (jsNumber s ≠ JSNum.nan →
      o.load s = ({ o with value := JSVal.num (jsNumber s), setByUser := true }, none)) := by
  constructor
  · intro h
    unfold ConfigOption.load
    rw [hval, h]
  · intro h
    unfold ConfigOption.load
    rw [hval]
    cases hn : jsNumber s
    · exact absurd hn h
    · rfl
    · rfl
    · rfl

/-- A concrete number option, as constructed by the schema author. -/
def sampleNumberOption : ConfigOption :=
  ConfigOption.construct (JSVal.num (JSNum.fin 300)) OptionType.number "sample" true

/-- Counterexample for C4 as stated: `"Infinity"` parses to a non-finite
number, yet `load` accepts it — the value becomes `Infinity`, `setByUser`
becomes `true`, and no diagnostic is emitted (the code only checks `isNaN`,
not finiteness). -/
theorem c4_number_load_counterexample :
    sampleNumberOption.load "Infinity"
      = ({ sampleNumberOption with value := JSVal.num JSNum.posInf, setByUser := true }, none) ∧
    sampleNumberOption.value = JSVal.num (JSNum.fin 300) ∧
    (sampleNumberOption.load "Infinity").1.value ≠ sampleNumberOption.value ∧
    (sampleNumberOption.load "Infinity").2 = none := by
  refine ⟨rfl, rfl, ?_, rfl⟩
  decide

/-- Witness for C4's amended theorem: `load("3.14")` succeeds with the parsed
value (`jsNumber "3.14" = 157/50 = 3.14`). -/
theorem c4_number_load_witness :
    sampleNumberOption.load "3.14"
      = ({ sampleNumberOption with value := JSVal.num (jsNumber "3.14"), setByUser := true },
         none) ∧
    jsNumber "3.14" = JSNum.fin (mkRat 157 50) :=
  ⟨(c4_number_load sampleNumberOption (JSNum.fin 300) rfl rfl "3.14").2 (by decide), by decide⟩

-- ============================================
-- === Claim theorems: Group merge / load   ===
-- ============================================

/-- A concrete group holding option reference 0 under the name `x`. -/
def shadowSelf : GroupT := .mk [("x", 0)] .nil

/-- A concrete group holding a different option reference under the same
name `x`. -/
def shadowOther : GroupT := .mk [("x", 1)] .nil

/-- C6: merging two groups that both bind the name `x` replaces `self`'s
option reference with `other`'s.  The merge emits no diagnostic of any kind:
its only output is the merged group (the collision branch of the source is
an empty `// TODO warning` comment), so the shadowing is silent — against
the claim's `never silent`. -/
theorem c6_merge_shadow_silent :
    shadowSelf.merge shadowOther = GroupT.mk [("x", 1)] .nil := rfl

/-- A concrete option object, stored under identity 0. -/
def sharedOption : ConfigOption :=
  ConfigOption.construct (JSVal.bool false) OptionType.boolean "shared" true

/-- The store holding the single option object 0. -/
def sharedStore : Store := [(0, sharedOption)]

/-- A group owning option object 0 under the name `x`. -/
def aliasGroupA : GroupT := .mk [("x", 0)] .nil

/-- An empty group. -/
def aliasGroupB : GroupT := .mk [] .nil

/-- Counterexample for C5 as stated: after `m = A.merge(B)`, resolving the
override `{x: "true"}` against `m` mutates option object 0 — which is
reachable from `A` — flipping its `value` and `setByUser`: merge copies
`Option` references, it does not clone them. -/
theorem c5_merge_shares_counterexample :
    0 ∈ aliasGroupA.optionIds ∧
    recGet sharedStore 0 = some sharedOption ∧
    sharedOption.value = JSVal.bool false ∧
    sharedOption.setByUser = false ∧
    recGet ((aliasGroupA.merge aliasGroupB).load sharedStore
        (OverrideValue.obj (OverrideEntries.ofList [("x", OverrideValue.str "true")]))).1 0
      = some { sharedOption with value := JSVal.bool true, setByUser := true } :=
  ⟨by decide, rfl, rfl, rfl, rfl⟩

theorem mem_recSet_values {i : OptId} : ∀ (os : List (String × OptId)) (n : String) (o : OptId),
    i ∈ (recSet os n o).map (fun p => p.2) → i ∈ os.map (fun p => p.2) ∨ i = o
  | [], n, o, h => by
    simp only [recSet, List.map_cons, List.map_nil, List.mem_singleton] at h
    exact Or.inr h
  | (k, w) :: rest, n, o, h => by
    simp only [recSet] at h
    by_cases hk : k = n
    · rw [if_pos hk, List.map_cons] at h
      rcases List.mem_cons.mp h with h | h
      · exact Or.inr h
      · exact Or.inl (by rw [List.map_cons]; exact List.mem_cons.mpr (Or.inr h))
    · rw [if_neg hk, List.map_cons] at h
      rcases List.mem_cons.mp h with h | h
      · exact Or.inl (by rw [List.map_cons]; exact List.mem_cons.mpr (Or.inl h))
      · rcases mem_recSet_values rest n o h with h2 | h2
        · exact Or.inl (by rw [List.map_cons]; exact List.mem_cons.mpr (Or.inr h2))
        · exact Or.inr h2

theorem mem_mergeOptionLists_values {i : OptId} : ∀ (os2 os : List (String × OptId)),
    i ∈ (mergeOptionLists os os2).map (fun p => p.2) →
    i ∈ os.map (fun p => p.2) ∨ i ∈ os2.map (fun p => p.2)
  | [], os, h => Or.inl h
  | (n, o) :: rest, os, h => by
    simp only [mergeOptionLists] at h
    rcases mem_mergeOptionLists_values rest (recSet os n o) h with h2 | h2
    · rcases mem_recSet_values os n o h2 with h3 | h3
      · exact Or.inl h3
      · exact Or.inr (by rw [List.map_cons]; exact List.mem_cons.mpr (Or.inl h3))
    · exact Or.inr (by rw [List.map_cons]; exact List.mem_cons.mpr (Or.inr h2))

theorem mem_get_optionIdsList {i : OptId} : ∀ (gs : GroupList) (n : String) (g : GroupT),
    gs.get n = some g → i ∈ g.optionIds → i ∈ optionIdsList gs
  | .nil, n, g, hget, _ => by simp [GroupList.get] at hget
  | .cons k g0 rest, n, g, hget, hi => by
    simp only [GroupList.get] at hget
    by_cases hk : k = n
    · rw [if_pos hk] at hget
      injection hget with hg
      subst hg
      simp only [optionIdsList, List.mem_append]
      exact Or.inl hi
    · rw [if_neg hk] at hget
      simp only [optionIdsList, List.mem_append]
      exact Or.inr (mem_get_optionIdsList rest n g hget hi)

theorem mem_set_optionIdsList {i : OptId} : ∀ (gs : GroupList) (n : String) (g : GroupT),
    i ∈ optionIdsList (gs.set n g) → i ∈ optionIdsList gs ∨ i ∈ g.optionIds
  | .nil, n, g, h => by
    simp only [GroupList.set, optionIdsList, List.append_nil, List.mem_append,
      List.not_mem_nil, or_false] at h
    exact Or.inr h
  | .cons k g0 rest, n, g, h => by
    simp only [GroupList.set] at h
    by_cases hk : k = n
    · rw [if_pos hk] at h
      simp only [optionIdsList, List.mem_append] at h
      rcases h with h | h
      · exact Or.inr h
      · exact Or.inl (by simp only [optionIdsList, List.mem_append]; exact Or.inr h)
    · rw [if_neg hk] at h
      simp only [optionIdsList, List.mem_append] at h
      rcases h with h | h
      · exact Or.inl (by simp only [optionIdsList, List.mem_append]; exact Or.inl h)
      · rcases mem_set_optionIdsList rest n g h with h2 | h2
        · exact Or.inl (by simp only [optionIdsList, List.mem_append]; exact Or.inr h2)
        · exact Or.inr h2

mutual

/-- Every option reference of a merge result comes from one of the inputs
(mutual recursion with the loop invariant below). -/
theorem mergeOptionIdsSubsetAux (a b : GroupT) (i : OptId)
    (h : i ∈ (a.merge b).optionIds) : i ∈ a.optionIds ∨ i ∈ b.optionIds :=
  match a, b with
  | .mk os gs, .mk os2 gs2 => by
    simp only [GroupT.merge, GroupT.optionIds, List.mem_append] at h
    rcases h with h | h
    · rcases mem_mergeOptionLists_values os2 os h with h2 | h2
      · exact Or.inl (by simp only [GroupT.optionIds, List.mem_append]; exact Or.inl h2)
      · exact Or.inr (by simp only [GroupT.optionIds, List.mem_append]; exact Or.inl h2)
    · rcases mergeGroupLists_optionIds_subset gs gs2 i h with h2 | h2
      · exact Or.inl (by simp only [GroupT.optionIds, List.mem_append]; exact Or.inr h2)
      · exact Or.inr (by simp only [GroupT.optionIds, List.mem_append]; exact Or.inr h2)

/-- The loop invariant behind `mergeOptionIdsSubsetAux`. -/
theorem mergeGroupLists_optionIds_subset (acc l : GroupList) (i : OptId)
    (h : i ∈ optionIdsList (mergeGroupLists acc l)) :
    i ∈ optionIdsList acc ∨ i ∈ optionIdsList l :=
  match l with
  | .nil => Or.inl h
  | .cons n g2 rest => by
    simp only [mergeGroupLists] at h
    cases hget : acc.get n with
    | none =>
      rw [hget] at h
      rcases mergeGroupLists_optionIds_subset (acc.set n g2) rest i h with h2 | h2
      · rcases mem_set_optionIdsList acc n g2 h2 with h3 | h3
        · exact Or.inl h3
        · exact Or.inr (by simp only [optionIdsList, List.mem_append]; exact Or.inl h3)
      · exact Or.inr (by simp only [optionIdsList, List.mem_append]; exact Or.inr h2)
    | some g =>
      rw [hget] at h
      rcases mergeGroupLists_optionIds_subset (acc.set n (g.merge g2)) rest i h with h2 | h2
      · rcases mem_set_optionIdsList acc n (g.merge g2) h2 with h3 | h3
        · exact Or.inl h3
        · rcases mergeOptionIdsSubsetAux g g2 i h3 with h4 | h4
          · exact Or.inl (mem_get_optionIdsList acc n g hget h4)
          · exact Or.inr (by simp only [optionIdsList, List.mem_append]; exact Or.inl h4)
      · exact Or.inr (by simp only [optionIdsList, List.mem_append]; exact Or.inr h2)

end

/-- C5 (amended, sharing half): every option reference reachable from
`A.merge(B)` is an option reference of `A` or of `B` — the merge result
aliases its inputs' `Option` objects rather than cloning them, so loading
overrides into the result mutates options reachable from the inputs. -/
theorem merge_optionIds_subset (a b : GroupT) (i : OptId)
    (h : i ∈ (a.merge b).optionIds) : i ∈ a.optionIds ∨ i ∈ b.optionIds :=
  mergeOptionIdsSubsetAux a b i h

/-- Witness for C5's amended theorem at the counterexample instance. -/
theorem merge_optionIds_subset_witness :
    0 ∈ aliasGroupA.optionIds ∨ 0 ∈ aliasGroupB.optionIds :=
  merge_optionIds_subset aliasGroupA aliasGroupB 0 (by decide)

-- ======================================================
-- === Claim theorems: merge associativity (disjoint) ===
-- ======================================================

/-- Concatenation of `groups` records. -/
def GroupList.append : GroupList → GroupList → GroupList
  | .nil, l => l
  | .cons n g rest, l => .cons n g (rest.append l)

theorem GroupList.append_assoc : ∀ (l1 l2 l3 : GroupList),
    (l1.append l2).append l3 = l1.append (l2.append l3)
  | .nil, _, _ => rfl
  | .cons n g rest, l2, l3 => by
    simp only [GroupList.append]
    exact congrArg (GroupList.cons n g) (GroupList.append_assoc rest l2 l3)

theorem GroupList.keys_append : ∀ (l1 l2 : GroupList),
    (l1.append l2).keys = l1.keys ++ l2.keys
  | .nil, _ => rfl
  | .cons n g rest, l2 => by
    simp only [GroupList.append, GroupList.keys, List.cons_append]
    exact congrArg (List.cons n) (GroupList.keys_append rest l2)

theorem GroupList.append_nil : ∀ (l : GroupList), l.append .nil = l
  | .nil => rfl
  | .cons n g rest => congrArg (GroupList.cons n g) (GroupList.append_nil rest)

theorem GroupList.get_eq_none : ∀ (l : GroupList) (k : String),
    k ∉ l.keys → l.get k = none
  | .nil, _, _ => rfl
  | .cons n g rest, k, h => by
    simp only [GroupList.keys, List.mem_cons, not_or] at h
    simp only [GroupList.get]
    rw [if_neg (fun hn => h.1 hn.symm)]
    exact GroupList.get_eq_none rest k h.2

theorem GroupList.set_not_mem : ∀ (l : GroupList) (k : String) (g : GroupT),
    k ∉ l.keys → l.set k g = l.append (.cons k g .nil)
  | .nil, _, _, _ => rfl
  | .cons n g0 rest, k, g, h => by
    simp only [GroupList.keys, List.mem_cons, not_or] at h
    simp only [GroupList.set, GroupList.append]
    rw [if_neg (fun hn => h.1 hn.symm)]
    exact congrArg (GroupList.cons n g0) (GroupList.set_not_mem rest k g h.2)

theorem mergeGroupLists_disjoint : ∀ (l acc : GroupList),
    (∀ k ∈ l.keys, k ∉ acc.keys) → l.keys.Nodup →
    mergeGroupLists acc l = acc.append l
  | .nil, acc, _, _ => by
    simp only [mergeGroupLists, GroupList.append_nil]
  | .cons n g2 rest, acc, hdisj, hnodup => by
    have hn : n ∉ acc.keys :=
      hdisj n (by simp only [GroupList.keys, List.mem_cons]; exact Or.inl trivial)
    simp only [mergeGroupLists, GroupList.get_eq_none acc n hn,
      GroupList.set_not_mem acc n g2 hn]
    have hrest : ∀ k ∈ rest.keys, k ∉ (acc.append (GroupList.cons n g2 .nil)).keys := by
      intro k hk
      rw [GroupList.keys_append]
      simp only [List.mem_append, GroupList.keys, List.mem_singleton, not_or]
      refine ⟨hdisj k (by simp only [GroupList.keys, List.mem_cons]; exact Or.inr hk), ?_⟩
      intro hkn
      subst hkn
      exact (List.nodup_cons.mp (by simpa [GroupList.keys] using hnodup)).1 hk
    have hnodup2 : rest.keys.Nodup := (List.nodup_cons.mp (by simpa [GroupList.keys] using hnodup)).2
    rw [mergeGroupLists_disjoint rest (acc.append (GroupList.cons n g2 .nil)) hrest hnodup2]
    rw [GroupList.append_assoc]
    rfl

theorem recGet_eq_none {α : Type} : ∀ (l : List (String × α)) (k : String),
    k ∉ keysOf l → recGet l k = none
  | [], _, _ => rfl
  | (n, v) :: rest, k, h => by
    simp only [keysOf, List.map_cons, List.mem_cons, not_or] at h
    simp only [recGet]
    rw [if_neg (fun hn => h.1 hn.symm)]
    exact recGet_eq_none rest k h.2

theorem recSet_not_mem {α : Type} : ∀ (l : List (String × α)) (k : String) (v : α),
    k ∉ keysOf l → recSet l k v = l ++ [(k, v)]
  | [], _, _, _ => rfl
  | (n, w) :: rest, k, v, h => by
    simp only [keysOf, List.map_cons, List.mem_cons, not_or] at h
    simp only [recSet, List.cons_append]
    rw [if_neg (fun hn => h.1 hn.symm)]
    exact congrArg _ (recSet_not_mem rest k v h.2)

theorem mergeOptionLists_disjoint : ∀ (l acc : List (String × OptId)),
    (∀ k ∈ keysOf l, k ∉ keysOf acc) → (keysOf l).Nodup →
    mergeOptionLists acc l = acc ++ l
  | [], acc, _, _ => by simp [mergeOptionLists]
  | (n, o) :: rest, acc, hdisj, hnodup => by
    have hn : n ∉ keysOf acc :=
      hdisj n (by simp only [keysOf, List.map_cons, List.mem_cons]; exact Or.inl trivial)
    simp only [mergeOptionLists, recSet_not_mem acc n o hn]
    have hrest : ∀ k ∈ keysOf rest, k ∉ keysOf (acc ++ [(n, o)]) := by
      intro k hk
      simp only [keysOf, List.map_append, List.mem_append, List.map_cons, List.map_nil,
        List.mem_singleton, not_or]
      refine ⟨hdisj k (by simp only [keysOf, List.map_cons, List.mem_cons]; exact Or.inr hk), ?_⟩
      intro hkn
      subst hkn
      exact (List.nodup_cons.mp (by simpa [keysOf] using hnodup)).1 hk
    have hnodup2 : (keysOf rest).Nodup := (List.nodup_cons.mp (by simpa [keysOf] using hnodup)).2
    rw [mergeOptionLists_disjoint rest (acc ++ [(n, o)]) hrest hnodup2, List.append_assoc]
    rfl

/-- Two groups share no child name: `other`'s option keys avoid `self`'s and
likewise for group keys. -/
def childKeysDisjoint (other self : GroupT) : Prop :=
  (∀ k ∈ keysOf other.options, k ∉ keysOf self.options) ∧
  (∀ k ∈ other.groups.keys, k ∉ self.groups.keys)

/-- A group's direct child names are duplicate-free (the invariant of a JS
object literal). -/
def childKeysNodup (g : GroupT) : Prop :=
  (keysOf g.options).Nodup ∧ g.groups.keys.Nodup

instance (other self : GroupT) : Decidable (childKeysDisjoint other self) :=
  inferInstanceAs (Decidable ((∀ k ∈ keysOf other.options, k ∉ keysOf self.options) ∧
    (∀ k ∈ other.groups.keys, k ∉ self.groups.keys)))

instance (g : GroupT) : Decidable (childKeysNodup g) :=
  inferInstanceAs (Decidable ((keysOf g.options).Nodup ∧ g.groups.keys.Nodup))

/-- Under disjointness, `merge` is plain concatenation of both records. -/
theorem merge_disjoint (a b : GroupT) (hd : childKeysDisjoint b a) (hn : childKeysNodup b) :
    a.merge b = GroupT.mk (a.options ++ b.options) (a.groups.append b.groups) := by
  cases a with
  | mk os gs =>
    cases b with
    | mk os2 gs2 =>
      simp only [GroupT.merge]
      rw [mergeOptionLists_disjoint os2 os hd.1 hn.1,
        mergeGroupLists_disjoint gs2 gs hd.2 hn.2]
      rfl

/-- C9: over pairwise-disjoint schemas, `merge` reduces to concatenation of
both records, so it is associative, and the two associations therefore
resolve identically on every store and override input. -/
theorem c9_merge_assoc_disjoint (a b c : GroupT)
    (hb : childKeysNodup b) (hc : childKeysNodup c)
    (hba : childKeysDisjoint b a) (hca : childKeysDisjoint c a)
    (hcb : childKeysDisjoint c b) :
    (a.merge b).merge c = a.merge (b.merge c) ∧
    ∀ st cfg, ((a.merge b).merge c).load st cfg = (a.merge (b.merge c)).load st cfg := by
  have mAB : a.merge b = GroupT.mk (a.options ++ b.options) (a.groups.append b.groups) :=
    merge_disjoint a b hba hb
  have mBC : b.merge c = GroupT.mk (b.options ++ c.options) (b.groups.append c.groups) :=
    merge_disjoint b c hcb hc
  have hcab : childKeysDisjoint c (a.merge b) := by
    rw [mAB]
    refine ⟨?_, ?_⟩
    · intro k hk
      simp only [GroupT.options, keysOf, List.map_append, List.mem_append, not_or]
      exact ⟨fun hm => hca.1 k hk hm, fun hm => hcb.1 k hk hm⟩
    · intro k hk
      simp only [GroupT.groups, GroupList.keys_append, List.mem_append, not_or]
      exact ⟨fun hm => hca.2 k hk hm, fun hm => hcb.2 k hk hm⟩
  have mABC : (a.merge b).merge c
      = GroupT.mk ((a.options ++ b.options) ++ c.options)
          ((a.groups.append b.groups).append c.groups) := by
    rw [merge_disjoint (a.merge b) c hcab hc, mAB]
    rfl
  have hbca : childKeysDisjoint (b.merge c) a := by
    rw [mBC]
    refine ⟨?_, ?_⟩
    · intro k hk
      simp only [GroupT.options, keysOf, List.map_append, List.mem_append] at hk
      rcases hk with hk | hk
      · exact hba.1 k hk
      · exact hca.1 k hk
    · intro k hk
      simp only [GroupT.groups, GroupList.keys_append, List.mem_append] at hk
      rcases hk with hk | hk
      · exact hba.2 k hk
      · exact hca.2 k hk
  have hbcn : childKeysNodup (b.merge c) := by
    rw [mBC]
    refine ⟨?_, ?_⟩
    · simp only [GroupT.options, keysOf, List.map_append]
      exact hb.1.append hc.1 (fun k hk hk2 => hcb.1 k hk2 hk)
    · simp only [GroupT.groups, GroupList.keys_append]
      exact hb.2.append hc.2 (fun k hk hk2 => hcb.2 k hk2 hk)
  have mABC2 : a.merge (b.merge c)
      = GroupT.mk (a.options ++ (b.options ++ c.options))
          (a.groups.append (b.groups.append c.groups)) := by
    rw [merge_disjoint a (b.merge c) hbca hbcn, mBC]
    rfl
  have heq : (a.merge b).merge c = a.merge (b.merge c) := by
    rw [mABC, mABC2, List.append_assoc, GroupList.append_assoc]
  exact ⟨heq, fun st cfg => by rw [heq]⟩

/-- A concrete group (distinct names from the two below). -/
def disjointGroupA : GroupT :=
  .mk [("a", 0)] (GroupList.cons "ga" (.mk [("p", 1)] .nil) .nil)

/-- A concrete group, disjoint from its two peers. -/
def disjointGroupB : GroupT :=
  .mk [("b", 2)] (GroupList.cons "gb" (.mk [("q", 3)] .nil) .nil)

/-- A concrete group, disjoint from its two peers. -/
def disjointGroupC : GroupT := .mk [("c", 4)] .nil

/-- Witness for C9 at three concrete pairwise-disjoint groups. -/
theorem c9_merge_assoc_witness :
    (disjointGroupA.merge disjointGroupB).merge disjointGroupC
      = disjointGroupA.merge (disjointGroupB.merge disjointGroupC) :=
  (c9_merge_assoc_disjoint disjointGroupA disjointGroupB disjointGroupC
    (by decide) (by decide) (by decide) (by decide) (by decide)).1
